import Mathlib

/-!
Shallow embedding of the YAML ("Yet Another Matrix Library") repository:
the `Matrix<N>` class of `src/matrix.hpp` and the demonstration program
`main.cpp`.  The element type `N` (constrained to integral or
floating-point numbers) is embedded as `Int`, the type the demonstration
program instantiates (`Matrix<int>`).  The C++ fields `_data`, `_rows`,
`_cols` become the structure fields `data`, `rows`, `cols`; the getters
`rows()` / `cols()` coincide with field access.  Operations that execute
a C++ `assert` are embedded as `Option`-valued functions: `none` models
the program-terminating assertion failure, `some` the normal return.
All other functions are pure, mirroring the fact that the C++ methods
build and return fresh matrices without mutating their operands.
-/

namespace Yaml

/-- The `Matrix<N>` class of `matrix.hpp` at `N = int`: a vector of row
vectors `_data` together with the shape fields `_rows` and `_cols`. -/
structure Matrix where
  data : List (List Int)
  rows : Nat
  cols : Nat
deriving DecidableEq, Repr

/-- Alternative getter `columns()` for the `_cols` attribute
(`matrix.hpp` line 119); it just calls `cols()`. -/
def Matrix.columns (m : Matrix) : Nat := m.cols

/-- Raw two-step element read `_data[i][j]`, as performed inside
`transpose` and `seq_add` on the current instance.  C++ `operator[]` of
`std::vector` is unchecked; out-of-range reads (impossible on matrices
satisfying the class invariant) default to `[]` / `0` here. -/
def Matrix.get (m : Matrix) (i j : Nat) : Int :=
  (m.data.getD i []).getD j 0

/-- A fresh `r × c` grid whose cell `(i, j)` holds `f i j`: the result
of a nested `for` loop that writes every cell of a freshly allocated
grid exactly once, as in `transpose` and `seq_add`. -/
def build (r c : Nat) (f : Nat → Nat → Int) : List (List Int) :=
  (List.range r).map fun i => (List.range c).map fun j => f i j

/-- Constructor `Matrix(rows, cols)` (`matrix.hpp` lines 51-54):
`_data.resize(_rows, std::vector<N>(_cols))` yields `rows` rows of
`cols` value-initialized (zero) elements. -/
def Matrix.ofDims (rows cols : Nat) : Matrix :=
  ⟨List.replicate rows (List.replicate cols 0), rows, cols⟩

/-- Constructor `Matrix(rows, cols, init_val)` (`matrix.hpp` lines
65-74): the same resize, then every element is assigned `init_val`. -/
def Matrix.ofDimsInit (rows cols : Nat) (init_val : Int) : Matrix :=
  ⟨List.replicate rows (List.replicate cols init_val), rows, cols⟩

/-- Copy constructor / copy assignment (`matrix.hpp` lines 82-83 and
217-226): the new (resp. assigned) matrix receives copies of `_data`,
`_rows` and `_cols` of the source. -/
def Matrix.copy (m : Matrix) : Matrix :=
  ⟨m.data, m.rows, m.cols⟩

/-- `transpose()` (`matrix.hpp` lines 129-137): allocates
`Matrix t(cols(), rows())` and runs the loop `t[j][i] = _data[i][j]`
over all `i < rows()`, `j < cols()`, writing every cell of `t` once. -/
def Matrix.transpose (m : Matrix) : Matrix :=
  ⟨build m.cols m.rows (fun j i => m.get i j), m.cols, m.rows⟩

/-- Alias `T()` for `transpose()` (`matrix.hpp` lines 145-147). -/
def Matrix.T (m : Matrix) : Matrix := m.transpose

/-- `seq_add` (`matrix.hpp` lines 158-168): asserts the shapes agree
(`none` models the assertion abort), then fills a fresh
`Matrix result(rows(), cols())` with `result[k][z] = _data[i][x] + m[j][y]`
where the indices `i = j = k` and `x = y = z` run over the shape.  The
access `m[j][y]` goes through `operator[]`, whose `assert(j < m._rows)`
holds because `j < rows() = m.rows()` was just asserted. -/
def Matrix.seq_add (a m : Matrix) : Option Matrix :=
  if a.rows = m.rows ∧ a.cols = m.cols then
    some ⟨build a.rows a.cols (fun i x => a.get i x + m.get i x), a.rows, a.cols⟩
  else
    none

/-- `operator+` (`matrix.hpp` lines 180-182): returns `seq_add(m)`. -/
def Matrix.add (a m : Matrix) : Option Matrix := a.seq_add m

/-- `operator[](idx)` (`matrix.hpp` lines 193-196 and the `const`
overload at 206-209): `assert(idx < _rows)` — modelled by `none` —
then returns the row `_data[idx]`. -/
def Matrix.getRow (m : Matrix) (idx : Nat) : Option (List Int) :=
  if idx < m.rows then some (m.data.getD idx []) else none

/-- `operator==` (`matrix.hpp` lines 235-246): asserts the shapes agree
(`none` models the abort), then scans row-major and returns `false` at
the first mismatching pair of elements, `true` if none is found. -/
def Matrix.beq (a rhs : Matrix) : Option Bool :=
  if a.rows = rhs.rows ∧ a.cols = rhs.cols then
    some ((List.range a.rows).all fun i =>
      (List.range a.cols).all fun x => a.get i x == rhs.get i x)
  else
    none

/-- `operator!=` (`matrix.hpp` lines 256-258): `!(*this == rhs)`;
it aborts exactly when `operator==` does. -/
def Matrix.bne (a rhs : Matrix) : Option Bool :=
  (a.beq rhs).map (fun b => !b)

/-- The class invariant stated in the spec: `_data` holds exactly
`rows()` row vectors, each of exactly `cols()` elements. -/
def Matrix.WellFormed (m : Matrix) : Prop :=
  m.data.length = m.rows ∧ ∀ row ∈ m.data, row.length = m.cols

instance (m : Matrix) : Decidable m.WellFormed := by
  unfold Matrix.WellFormed
  infer_instance

/-- Concatenation of a list of output fragments, in order: the text an
output stream accumulates over successive insertions. -/
def strConcat : List String → String
  | [] => ""
  | s :: ss => s ++ strConcat ss

/-- Inner loop of `operator<<` (`matrix.hpp` line 276-278): for each
element `j` of a row, `out << j << ' '`. -/
def dumpRow : List Int → String
  | [] => ""
  | x :: xs => toString x ++ " " ++ dumpRow xs

/-- Outer loop of `operator<<` (`matrix.hpp` lines 275-280): for each
row of `_data`, the row's elements followed by `out << '\n'`. -/
def dumpRows : List (List Int) → String
  | [] => ""
  | r :: rs => dumpRow r ++ "\n" ++ dumpRows rs

/-- `operator<<` (`matrix.hpp` lines 273-282): the text the stream
insertion writes for a matrix.  It walks `m._data` itself. -/
def Matrix.dump (m : Matrix) : String := dumpRows m.data

/-- Restatement of the spec's description of the dump: row-major over
the shape `rows() × cols()`, one line per row, each element followed
by exactly one space, each row ended by a newline.  Written from the
spec's words, to be compared with `Matrix.dump` (refinement). -/
def Matrix.dumpSpec (m : Matrix) : String :=
  strConcat ((List.range m.rows).map fun i =>
    strConcat ((List.range m.cols).map fun j => toString (m.get i j) ++ " ")
      ++ "\n")

/- ### The demonstration program (main.cpp) -/

/-- How `std::cout` renders a `bool` without `boolalpha`. -/
def cppBool (b : Bool) : String := if b then "1" else "0"

/-- `Matrix<int> a(2, 2, 4)` of `main.cpp`. -/
def matA : Matrix := Matrix.ofDimsInit 2 2 4

/-- `Matrix<int> b(2, 2, 8)` of `main.cpp`. -/
def matB : Matrix := Matrix.ofDimsInit 2 2 8

/-- `Matrix<int> c(2, 2, 12)` of `main.cpp`. -/
def matC : Matrix := Matrix.ofDimsInit 2 2 12

/-- `Matrix<int> res = a.seq_add(b)` of `main.cpp`; the shapes agree,
so the assertions pass and the sum is defined (`getD` peels the
provably-`some` result). -/
def mainRes : Matrix := (matA.seq_add matB).getD (Matrix.ofDims 0 0)

/-- The successive pieces `main` inserts into `std::cout`, in order:
`res == c` (a `bool`), `'\n'`, the dump of `a`, `'\n'`, `"Result:\n"`,
the dump of `res`, `'\n'`, `"C:\n"`, the dump of `c`, `'\n'`.  The
comparison's assertions pass (equal shapes), so its boolean result is
the `getD`-peeled value. -/
def mainChunks : List String :=
  [cppBool ((mainRes.beq matC).getD false), "\n",
   matA.dump, "\n",
   "Result:\n", mainRes.dump, "\n",
   "C:\n", matC.dump, "\n"]

/-- Everything `main` writes to standard output. -/
def mainOutput : String := strConcat mainChunks

/- ### Helper lemmas about grids -/

/-- Reading cell `(i, j)` of a freshly built `r × c` grid gives
`f i j`. -/
theorem get_build (r c : Nat) (f : Nat → Nat → Int) (i j : Nat)
    (hi : i < r) (hj : j < c) :
    Matrix.get ⟨build r c f, r, c⟩ i j = f i j := by
  simp [Matrix.get, build, List.getD, hi, hj]

/-- A freshly built `r × c` grid has `r` rows of `c` elements each. -/
theorem wf_build (r c : Nat) (f : Nat → Nat → Int) :
    Matrix.WellFormed ⟨build r c f, r, c⟩ := by
  constructor
  · simp [build]
  · intro row hrow
    simp only [build, List.mem_map] at hrow
    obtain ⟨i, _, rfl⟩ := hrow
    simp

/-- Reading cell `(i, j)` of the replicated grid of the constructors
gives the fill value. -/
theorem get_replicate (r c : Nat) (v : Int) (i j : Nat)
    (hi : i < r) (hj : j < c) :
    Matrix.get ⟨List.replicate r (List.replicate c v), r, c⟩ i j = v := by
  simp [Matrix.get, List.getD, hi, hj]

/-- The inner print loop renders a row as its elements each followed by
one space, concatenated. -/
theorem dumpRow_eq_concat (row : List Int) :
    dumpRow row = strConcat (row.map fun x => toString x ++ " ") := by
  induction row with
  | nil => rfl
  | cons x xs ih => simp only [dumpRow, List.map_cons, strConcat, ih]

/-- The outer print loop renders the grid as its rendered rows each
followed by a newline, concatenated. -/
theorem dumpRows_eq_concat (rs : List (List Int)) :
    dumpRows rs = strConcat (rs.map fun row => dumpRow row ++ "\n") := by
  induction rs with
  | nil => rfl
  | cons r rest ih => simp only [dumpRows, List.map_cons, strConcat, ih]

/-- Dumping `r` empty rows yields `r` newline characters. -/
theorem dumpRows_replicate_nil (r : Nat) :
    dumpRows (List.replicate r []) = String.mk (List.replicate r '\n') := by
  induction r with
  | zero => rfl
  | succ n ih =>
    rw [List.replicate_succ]
    show dumpRow [] ++ "\n" ++ dumpRows (List.replicate n []) = _
    rw [ih, List.replicate_succ]
    rfl

/- ### Claim theorems -/

/-- C1: for matrices `a` and `b` with `a.rows() == b.rows()` and
`a.cols() == b.cols()`, `seq_add` (and the equivalent `operator+`)
returns a new matrix of the same shape whose `(i, j)` element is
`a[i][j] + b[i][j]` for every `i < rows`, `j < cols`.  Both operands
are untouched: the embedded operations are pure functions on values,
exactly as the C++ methods never write to `_data` of either operand. -/
theorem seq_add_spec (a b : Matrix) (hr : a.rows = b.rows)
    (hc : a.cols = b.cols) :
    ∃ m, a.seq_add b = some m ∧ a.add b = some m ∧
      m.rows = a.rows ∧ m.cols = a.cols ∧
      ∀ i j, i < a.rows → j < a.cols → m.get i j = a.get i j + b.get i j := by
  refine ⟨⟨build a.rows a.cols (fun i x => a.get i x + b.get i x),
      a.rows, a.cols⟩, ?_, ?_, rfl, rfl, ?_⟩
  · simp [Matrix.seq_add, hr, hc]
  · simp [Matrix.add, Matrix.seq_add, hr, hc]
  · intro i j hi hj
    exact get_build a.rows a.cols _ i j hi hj

/-- Witness for C1 at the concrete pair of `1 × 2` matrices filled
with `4` and `8`: the sum exists and its `(0, 1)` cell is `12`. -/
theorem seq_add_spec_witness :
    ∃ m, (Matrix.ofDimsInit 1 2 4).seq_add (Matrix.ofDimsInit 1 2 8) = some m ∧
      (Matrix.ofDimsInit 1 2 4).add (Matrix.ofDimsInit 1 2 8) = some m ∧
      m.rows = (Matrix.ofDimsInit 1 2 4).rows ∧
      m.cols = (Matrix.ofDimsInit 1 2 4).cols ∧
      ∀ i j, i < (Matrix.ofDimsInit 1 2 4).rows →
        j < (Matrix.ofDimsInit 1 2 4).cols →
        m.get i j = (Matrix.ofDimsInit 1 2 4).get i j +
          (Matrix.ofDimsInit 1 2 8).get i j :=
  seq_add_spec (Matrix.ofDimsInit 1 2 4) (Matrix.ofDimsInit 1 2 8) rfl rfl

/-- C3: `transpose()` (and the alias `T()`) returns a new matrix of
shape `cols × rows` with `result[j][i] == a[i][j]` for every
`i < rows`, `j < cols`; `a` itself is not mutated (the embedding is a
pure function of `a`, as the C++ loop only writes into the fresh
matrix `t`). -/
theorem transpose_spec (a : Matrix) :
    a.T = a.transpose ∧ a.transpose.rows = a.cols ∧
      a.transpose.cols = a.rows ∧
      ∀ i j, i < a.rows → j < a.cols → a.transpose.get j i = a.get i j := by
  refine ⟨rfl, rfl, rfl, ?_⟩
  intro i j hi hj
  exact get_build a.cols a.rows _ j i hj hi

/-- Witness for C3 at the `2 × 1` matrix filled with `5`: the
transpose has shape `1 × 2` and its `(0, 1)` cell is the original
`(1, 0)` cell. -/
theorem transpose_spec_witness :
    (Matrix.ofDimsInit 2 1 5).T = (Matrix.ofDimsInit 2 1 5).transpose ∧
      (Matrix.ofDimsInit 2 1 5).transpose.rows = (Matrix.ofDimsInit 2 1 5).cols ∧
      (Matrix.ofDimsInit 2 1 5).transpose.cols = (Matrix.ofDimsInit 2 1 5).rows ∧
      ∀ i j, i < (Matrix.ofDimsInit 2 1 5).rows →
        j < (Matrix.ofDimsInit 2 1 5).cols →
        (Matrix.ofDimsInit 2 1 5).transpose.get j i =
          (Matrix.ofDimsInit 2 1 5).get i j :=
  transpose_spec (Matrix.ofDimsInit 2 1 5)

/-- C4: `a.transpose().transpose()` has the shape of `a` and the same
element at every in-range position — the round-trip law. -/
theorem transpose_transpose (a : Matrix) :
    a.transpose.transpose.rows = a.rows ∧
      a.transpose.transpose.cols = a.cols ∧
      ∀ i j, i < a.rows → j < a.cols →
        a.transpose.transpose.get i j = a.get i j := by
  refine ⟨rfl, rfl, ?_⟩
  intro i j hi hj
  have h1 : a.transpose.transpose.get i j = a.transpose.get j i := by
    show Matrix.get ⟨build a.transpose.cols a.transpose.rows _, _, _⟩ i j = _
    exact get_build a.rows a.cols _ i j hi hj
  rw [h1]
  exact get_build a.cols a.rows _ j i hj hi

/-- Witness for C4 at the `1 × 2` matrix filled with `7`. -/
theorem transpose_transpose_witness :
    (Matrix.ofDimsInit 1 2 7).transpose.transpose.rows =
        (Matrix.ofDimsInit 1 2 7).rows ∧
      (Matrix.ofDimsInit 1 2 7).transpose.transpose.cols =
        (Matrix.ofDimsInit 1 2 7).cols ∧
      ∀ i j, i < (Matrix.ofDimsInit 1 2 7).rows →
        j < (Matrix.ofDimsInit 1 2 7).cols →
        (Matrix.ofDimsInit 1 2 7).transpose.transpose.get i j =
          (Matrix.ofDimsInit 1 2 7).get i j :=
  transpose_transpose (Matrix.ofDimsInit 1 2 7)

/-- C6: `Matrix(rows, cols)` yields a `rows × cols` matrix of zeros
(the default value of a numeric `N`), and `Matrix(rows, cols, init)`
yields a `rows × cols` matrix every element of which is `init`; zero
row or column counts are legal. -/
theorem ctor_spec (r c : Nat) (v : Int) :
    (Matrix.ofDims r c).rows = r ∧ (Matrix.ofDims r c).cols = c ∧
      (∀ i j, i < r → j < c → (Matrix.ofDims r c).get i j = 0) ∧
      (Matrix.ofDimsInit r c v).rows = r ∧
      (Matrix.ofDimsInit r c v).cols = c ∧
      ∀ i j, i < r → j < c → (Matrix.ofDimsInit r c v).get i j = v := by
  refine ⟨rfl, rfl, ?_, rfl, rfl, ?_⟩
  · intro i j hi hj
    exact get_replicate r c 0 i j hi hj
  · intro i j hi hj
    exact get_replicate r c v i j hi hj

/-- Witness for C6 at `rows = 2`, `cols = 3`, `init = 9`. -/
theorem ctor_spec_witness :
    (Matrix.ofDims 2 3).rows = 2 ∧ (Matrix.ofDims 2 3).cols = 3 ∧
      (∀ i j, i < 2 → j < 3 → (Matrix.ofDims 2 3).get i j = 0) ∧
      (Matrix.ofDimsInit 2 3 9).rows = 2 ∧
      (Matrix.ofDimsInit 2 3 9).cols = 3 ∧
      ∀ i j, i < 2 → j < 3 → (Matrix.ofDimsInit 2 3 9).get i j = 9 :=
  ctor_spec 2 3 9

/-- C2: a shape mismatch on `seq_add`/`operator+` or `operator==`
(hence `operator!=`), and a row index `idx >= rows()` on `operator[]`,
each hit an `assert` and terminate the program — modelled by `none`,
the only failure outcome these functions have (no exception value, no
error code in any return type).  The `iff`s also give the other half
of the claim: under the stated preconditions every operation returns
normally (`some`). -/
theorem abort_on_precondition (a b m : Matrix) (idx : Nat) :
    (a.seq_add b = none ↔ ¬(a.rows = b.rows ∧ a.cols = b.cols)) ∧
      (a.add b = none ↔ ¬(a.rows = b.rows ∧ a.cols = b.cols)) ∧
      (a.beq b = none ↔ ¬(a.rows = b.rows ∧ a.cols = b.cols)) ∧
      (a.bne b = none ↔ ¬(a.rows = b.rows ∧ a.cols = b.cols)) ∧
      (m.getRow idx = none ↔ m.rows ≤ idx) := by
  refine ⟨?_, ?_, ?_, ?_, ?_⟩
  · by_cases h : a.rows = b.rows ∧ a.cols = b.cols <;>
      simp [Matrix.seq_add, h]
  · by_cases h : a.rows = b.rows ∧ a.cols = b.cols <;>
      simp [Matrix.add, Matrix.seq_add, h]
  · by_cases h : a.rows = b.rows ∧ a.cols = b.cols <;>
      simp [Matrix.beq, h]
  · by_cases h : a.rows = b.rows ∧ a.cols = b.cols <;>
      simp [Matrix.bne, Matrix.beq, h]
  · constructor
    · intro hn
      by_contra hgt
      have hlt : idx < m.rows := by omega
      simp [Matrix.getRow, hlt] at hn
    · intro hle
      have hnlt : ¬ idx < m.rows := by omega
      simp [Matrix.getRow, hnlt]

/-- Witness for C2 at a `1 × 2` and a `2 × 1` matrix and row index
`3` on the former: every mismatched operation aborts, captured by
instantiating the characterization. -/
theorem abort_on_precondition_witness :
    ((Matrix.ofDims 1 2).seq_add (Matrix.ofDims 2 1) = none ↔
        ¬((Matrix.ofDims 1 2).rows = (Matrix.ofDims 2 1).rows ∧
          (Matrix.ofDims 1 2).cols = (Matrix.ofDims 2 1).cols)) ∧
      ((Matrix.ofDims 1 2).add (Matrix.ofDims 2 1) = none ↔
        ¬((Matrix.ofDims 1 2).rows = (Matrix.ofDims 2 1).rows ∧
          (Matrix.ofDims 1 2).cols = (Matrix.ofDims 2 1).cols)) ∧
      ((Matrix.ofDims 1 2).beq (Matrix.ofDims 2 1) = none ↔
        ¬((Matrix.ofDims 1 2).rows = (Matrix.ofDims 2 1).rows ∧
          (Matrix.ofDims 1 2).cols = (Matrix.ofDims 2 1).cols)) ∧
      ((Matrix.ofDims 1 2).bne (Matrix.ofDims 2 1) = none ↔
        ¬((Matrix.ofDims 1 2).rows = (Matrix.ofDims 2 1).rows ∧
          (Matrix.ofDims 1 2).cols = (Matrix.ofDims 2 1).cols)) ∧
      ((Matrix.ofDims 1 2).getRow 3 = none ↔ (Matrix.ofDims 1 2).rows ≤ 3) :=
  abort_on_precondition (Matrix.ofDims 1 2) (Matrix.ofDims 2 1)
    (Matrix.ofDims 1 2) 3

/-- C5: on equal shapes `operator==` returns normally with `true` iff
every corresponding pair of elements is equal, `operator!=` returns
its boolean negation, and `a == a` is `true` for every matrix. -/
theorem beq_spec (a b : Matrix) (hr : a.rows = b.rows)
    (hc : a.cols = b.cols) :
    ∃ r, a.beq b = some r ∧
      (r = true ↔ ∀ i j, i < a.rows → j < a.cols → a.get i j = b.get i j) ∧
      a.bne b = some (!r) ∧ a.beq a = some true := by
  refine ⟨(List.range a.rows).all fun i =>
      (List.range a.cols).all fun x => a.get i x == b.get i x, ?_, ?_, ?_, ?_⟩
  · simp [Matrix.beq, hr, hc]
  · constructor
    · intro hall i j hi hj
      simp only [List.all_eq_true, List.mem_range, beq_iff_eq] at hall
      exact hall i hi j hj
    · intro hval
      simp only [List.all_eq_true, List.mem_range, beq_iff_eq]
      intro i hi j hj
      exact hval i j hi hj
  · simp [Matrix.bne, Matrix.beq, hr, hc]
  · simp [Matrix.beq]

/-- Witness for C5 at two `2 × 2` matrices filled with `4`: `==`
yields `true`, `!=` yields `false`, and `a == a` is `true`. -/
theorem beq_spec_witness :
    ∃ r, (Matrix.ofDimsInit 2 2 4).beq (Matrix.ofDimsInit 2 2 4) = some r ∧
      (r = true ↔ ∀ i j, i < (Matrix.ofDimsInit 2 2 4).rows →
        j < (Matrix.ofDimsInit 2 2 4).cols →
        (Matrix.ofDimsInit 2 2 4).get i j = (Matrix.ofDimsInit 2 2 4).get i j) ∧
      (Matrix.ofDimsInit 2 2 4).bne (Matrix.ofDimsInit 2 2 4) = some (!r) ∧
      (Matrix.ofDimsInit 2 2 4).beq (Matrix.ofDimsInit 2 2 4) = some true :=
  beq_spec (Matrix.ofDimsInit 2 2 4) (Matrix.ofDimsInit 2 2 4) rfl rfl

/-- C8: both constructors, copy construction / copy assignment,
`transpose` and `seq_add`/`operator+` produce matrices whose `_data`
holds exactly `rows()` rows of exactly `cols()` elements.  A copy is
field-for-field identical to its source (so it inherits the invariant
and the shape), and no operation of the embedding mutates an existing
matrix — `rows()`/`cols()` are fixed at construction, there being no
resize operation in the interface. -/
theorem invariant_preserved (r c : Nat) (v : Int) (a b m : Matrix)
    (hm : a.seq_add b = some m) (ha : a.WellFormed) :
    (Matrix.ofDims r c).WellFormed ∧
      (Matrix.ofDimsInit r c v).WellFormed ∧
      a.transpose.WellFormed ∧ m.WellFormed ∧
      a.copy = a ∧ a.copy.WellFormed := by
  have hcopy : a.copy = a := rfl
  refine ⟨⟨by simp [Matrix.ofDims], ?_⟩, ⟨by simp [Matrix.ofDimsInit], ?_⟩,
      wf_build a.cols a.rows _, ?_, hcopy, hcopy ▸ ha⟩
  · intro row hrow
    simp only [Matrix.ofDims, List.eq_of_mem_replicate hrow]
    simp
  · intro row hrow
    simp only [Matrix.ofDimsInit, List.eq_of_mem_replicate hrow]
    simp
  · unfold Matrix.seq_add at hm
    by_cases h : a.rows = b.rows ∧ a.cols = b.cols
    · rw [if_pos h, Option.some_inj] at hm
      exact hm ▸ wf_build a.rows a.cols _
    · rw [if_neg h] at hm
      exact absurd hm (by simp)

/-- Witness for C8 at concrete shapes: `2 × 3` constructors, a `2 × 2`
well-formed matrix and the sum it forms with itself. -/
theorem invariant_preserved_witness :
    (Matrix.ofDims 2 3).WellFormed ∧
      (Matrix.ofDimsInit 2 3 9).WellFormed ∧
      (Matrix.ofDimsInit 2 2 4).transpose.WellFormed ∧
      (Matrix.ofDimsInit 2 2 8).WellFormed ∧
      (Matrix.ofDimsInit 2 2 4).copy = Matrix.ofDimsInit 2 2 4 ∧
      (Matrix.ofDimsInit 2 2 4).copy.WellFormed :=
  invariant_preserved 2 3 9 (Matrix.ofDimsInit 2 2 4)
    (Matrix.ofDimsInit 2 2 4) (Matrix.ofDimsInit 2 2 8) (by decide) (by decide)

/-- C7: on a well-formed matrix the stream insertion writes, row by
row, the elements in column order each followed by exactly one space,
then a newline per row (`Matrix.dumpSpec`, written from the spec's
words); the matrix is only read (the embedding is a pure function),
and the `0 × 0` matrix dumps to the empty string. -/
theorem dump_matches_spec (m : Matrix) (h : m.WellFormed) :
    m.dump = m.dumpSpec ∧ (Matrix.ofDims 0 0).dump = "" := by
  refine ⟨?_, rfl⟩
  obtain ⟨hlen, hrows⟩ := h
  unfold Matrix.dump Matrix.dumpSpec
  rw [dumpRows_eq_concat]
  congr 1
  refine List.ext_getElem (by simp [hlen]) ?_
  intro i h1 h2
  simp only [List.getElem_map, List.getElem_range]
  congr 1
  rw [dumpRow_eq_concat]
  congr 1
  have hi : i < m.data.length := by simpa using h1
  have hmem : m.data[i] ∈ m.data := List.getElem_mem hi
  have hrowlen : m.data[i].length = m.cols := hrows _ hmem
  refine List.ext_getElem (by simp [hrowlen]) ?_
  intro j hj1 hj2
  simp only [List.getElem_map, List.getElem_range]
  have hj : j < m.data[i].length := by simpa using hj1
  unfold Matrix.get
  rw [List.getD_eq_getElem m.data [] hi, List.getD_eq_getElem _ 0 hj]

/-- Witness for C7 at the `2 × 2` matrix of the demonstration program
filled with `4`. -/
theorem dump_matches_spec_witness :
    (Matrix.ofDimsInit 2 2 4).dump = (Matrix.ofDimsInit 2 2 4).dumpSpec ∧
      (Matrix.ofDims 0 0).dump = "" :=
  dump_matches_spec (Matrix.ofDimsInit 2 2 4) (by decide)

/-- C10: a matrix of shape `r × 0` with `r > 0` dumps to exactly `r`
newline characters — non-empty output although there are no elements —
and on well-formed matrices the dump is empty exactly when the matrix
has zero rows, whatever its column count. -/
theorem dump_rows_only (m : Matrix) (h : m.WellFormed) (r : Nat)
    (hr : 0 < r) :
    (Matrix.ofDims r 0).dump = String.mk (List.replicate r '\n') ∧
      (Matrix.ofDims r 0).dump ≠ "" ∧
      (m.dump = "" ↔ m.rows = 0) := by
  have hd : (Matrix.ofDims r 0).dump = String.mk (List.replicate r '\n') :=
    dumpRows_replicate_nil r
  refine ⟨hd, ?_, ?_, ?_⟩
  · rw [hd]
    intro hcon
    have : List.replicate r '\n' = ([] : List Char) := congrArg String.data hcon
    have : r = 0 := by simpa using congrArg List.length this
    omega
  · intro he
    obtain ⟨hlen, _⟩ := h
    by_contra hne
    cases hdata : m.data with
    | nil =>
      rw [hdata] at hlen
      simp at hlen
      omega
    | cons row rest =>
      have hdump : m.dump = dumpRow row ++ "\n" ++ dumpRows rest := by
        unfold Matrix.dump
        rw [hdata]
        rfl
      rw [hdump] at he
      have hlen2 := congrArg String.length he
      have hnl : ("\n" : String).length = 1 := rfl
      have hempty : ("" : String).length = 0 := rfl
      rw [String.length_append, String.length_append, hnl, hempty] at hlen2
      omega
  · intro h0
    obtain ⟨hlen, _⟩ := h
    have hnil : m.data = [] := List.length_eq_zero.mp (by omega)
    unfold Matrix.dump
    rw [hnil]
    rfl

/-- Witness for C10 at a well-formed `2 × 2` matrix and `r = 3`. -/
theorem dump_rows_only_witness :
    (Matrix.ofDims 3 0).dump = String.mk (List.replicate 3 '\n') ∧
      (Matrix.ofDims 3 0).dump ≠ "" ∧
      ((Matrix.ofDimsInit 2 2 4).dump = "" ↔
        (Matrix.ofDimsInit 2 2 4).rows = 0) :=
  dump_rows_only (Matrix.ofDimsInit 2 2 4) (by decide) 3 (by decide)

/-- C9 counterexample: the demonstration program does construct the
`2 × 2` matrices `a` and `b` filled with `4` and `8` and print the
comparison result, but it does not print the dump of `b`, the second
operand of the addition: `b`'s dump is no chunk of the output, and in
fact the character `8` never appears anywhere in the output (`main`
dumps `a`, the sum `res`, and the expected matrix `c` instead). -/
theorem main_not_print_matB :
    matB.dump = "8 8 \n8 8 \n" ∧ matB.dump ∉ mainChunks ∧
      mainOutput.toList.all (fun ch => ch ≠ '8') = true := by
  decide

/-- C9 amended: `main` constructs `a = Matrix<int>(2,2,4)`,
`b = Matrix<int>(2,2,8)` and `c = Matrix<int>(2,2,12)`, computes
`res = a.seq_add(b)`, and prints the comparison result `res == c`
(which renders as `1`) followed by the text dumps of the first operand
`a`, of the sum `res`, and of `c` — each dump followed by one extra
blank line, and the latter two preceded by the headers `Result:` and
`C:`. -/
theorem main_output_eq :
    mainOutput =
      "1\n4 4 \n4 4 \n\nResult:\n12 12 \n12 12 \n\nC:\n12 12 \n12 12 \n\n" := by
  decide

end Yaml
